import Mathlib

/-!
Verification of the FairAi fairness-evaluation engine
(`backend/bias/loan_approval.py` and `backend/bias/face_bias_evaluator.py`).

The Python source is shallowly embedded: a pandas `DataFrame` of scored
samples becomes a `List Row`, floats become `ℚ`, `df.groupby` becomes a
filter per distinct group key, and dictionaries keyed by metric name
become structures.  Every definition follows the corresponding source
function line by line.
-/

namespace FairAi

/-- One scored sample row, as consumed by
`MetricsEngine.compute_group_metrics`: the true-label column value, the
protected-group tag, the predicted probability and the value of the
prediction column that gets thresholded (`sub[pred_col]`). -/
structure Row where
  label : Int
  group : String
  prob : ℚ
  pred : ℚ
deriving DecidableEq, Repr

/-- `y_pred == 1` for a row: `sub[pred_col] >= self.threshold`
(loan_approval.py line 407, inclusive boundary). -/
def predPos (θ : ℚ) (r : Row) : Bool := decide (θ ≤ r.pred)

/-- `y_true == 1` for a row: `sub[label_col] == pos_label` (line 405). -/
def isPos (pos : Int) (r : Row) : Bool := decide (r.label = pos)

/-- The per-group metric record built at loan_approval.py lines 409-454.
The four confusion counts are the intermediate values `tp`, `fp`, `tn`,
`fn` of the source; the remaining fields are the entries of the result
dictionary (the bootstrap CI and AUC entries are modelled separately). -/
structure GroupMetrics where
  tp : Nat
  fp : Nat
  tn : Nat
  fn : Nat
  count : Nat
  approval_rate : ℚ
  accuracy : ℚ
  tpr : ℚ
  fpr : ℚ
  tnr : ℚ
  fnr : ℚ
  «precision» : ℚ
  «recall» : ℚ
  f1_score : ℚ
deriving DecidableEq, Repr

/-- Body of the `for group, sub in df.groupby(group_col)` loop of
`MetricsEngine.compute_group_metrics` (lines 404-454) on one subframe.
pandas `groupby` only yields nonempty subframes, so the `total == 0`
NaN branches of lines 415-416 are unreachable; they are rendered as `0`. -/
def groupMetricsOf (θ : ℚ) (pos : Int) (sub : List Row) : GroupMetrics :=
  let tp := sub.countP (fun r => predPos θ r && isPos pos r)
  let fp := sub.countP (fun r => predPos θ r && !(isPos pos r))
  let tn := sub.countP (fun r => !(predPos θ r) && !(isPos pos r))
  let fn := sub.countP (fun r => !(predPos θ r) && isPos pos r)
  let total := sub.length
  let approval_rate : ℚ :=
    if 0 < total then (sub.countP (predPos θ) : ℚ) / (total : ℚ) else 0
  let accuracy : ℚ :=
    if 0 < total then
      (sub.countP (fun r => predPos θ r == isPos pos r) : ℚ) / (total : ℚ)
    else 0
  let tpr : ℚ := if 0 < tp + fn then (tp : ℚ) / ((tp + fn : Nat) : ℚ) else 0
  let fpr : ℚ := if 0 < fp + tn then (fp : ℚ) / ((fp + tn : Nat) : ℚ) else 0
  let tnr : ℚ := if 0 < tn + fp then (tn : ℚ) / ((tn + fp : Nat) : ℚ) else 0
  let fnr : ℚ := if 0 < fn + tp then (fn : ℚ) / ((fn + tp : Nat) : ℚ) else 0
  let prec : ℚ := if 0 < tp + fp then (tp : ℚ) / ((tp + fp : Nat) : ℚ) else 0
  let rcl : ℚ := tpr
  let f1 : ℚ :=
    if 0 < prec + rcl then 2 * (prec * rcl) / (prec + rcl) else 0
  { tp := tp, fp := fp, tn := tn, fn := fn, count := total,
    approval_rate := approval_rate, accuracy := accuracy,
    tpr := tpr, fpr := fpr, tnr := tnr, fnr := fnr,
    «precision» := prec, «recall» := rcl, f1_score := f1 }

/-- `MetricsEngine.compute_group_metrics` (lines 401-455): partition the
table by the group column and compute the metric record per partition.
`df.groupby` iterates each distinct key with the rows carrying that key;
group tags are already strings here, so the `str(group)` dictionary keys
of line 441 are the tags themselves. -/
def computeGroupMetrics (θ : ℚ) (pos : Int) (df : List Row) :
    List (String × GroupMetrics) :=
  ((df.map Row.group).dedup).map
    (fun g => (g, groupMetricsOf θ pos (df.filter (fun r => decide (r.group = g)))))

/-- TP of the whole table at threshold `θ`: rows predicted positive whose
label equals the positive label (the counts of lines 409-412 applied to
the undivided table). -/
def overallTP (θ : ℚ) (pos : Int) (df : List Row) : Nat :=
  df.countP (fun r => predPos θ r && isPos pos r)

/-- FP of the whole table at threshold `θ`. -/
def overallFP (θ : ℚ) (pos : Int) (df : List Row) : Nat :=
  df.countP (fun r => predPos θ r && !(isPos pos r))

/-- TN of the whole table at threshold `θ`. -/
def overallTN (θ : ℚ) (pos : Int) (df : List Row) : Nat :=
  df.countP (fun r => !(predPos θ r) && !(isPos pos r))

/-- FN of the whole table at threshold `θ`. -/
def overallFN (θ : ℚ) (pos : Int) (df : List Row) : Nat :=
  df.countP (fun r => !(predPos θ r) && isPos pos r)

lemma countP_filter_group_cons (p : Row → Bool) (r : Row) (df : List Row) (g : String) :
    ((r :: df).filter (fun x => decide (x.group = g))).countP p
      = (df.filter (fun x => decide (x.group = g))).countP p
        + (if r.group = g then (if p r then 1 else 0) else 0) := by
  by_cases h : r.group = g
  · by_cases hp : p r <;> simp [List.filter_cons, h, List.countP_cons, hp]
  · simp [List.filter_cons, h]

lemma map_sum_add_ite (f : String → Nat) (c : Nat) (g0 : String) :
    ∀ ks : List String, ks.Nodup → g0 ∈ ks →
      (ks.map (fun g => f g + if g0 = g then c else 0)).sum = (ks.map f).sum + c := by
  intro ks
  induction ks with
  | nil => intro _ h; cases h
  | cons k ks ih =>
    intro hnd hmem
    rcases List.mem_cons.mp hmem with h | h
    · subst h
      have hnot : g0 ∉ ks := (List.nodup_cons.mp hnd).1
      have htail : (ks.map (fun g => f g + if g0 = g then c else 0)).sum
          = (ks.map f).sum := by
        have hc : ∀ g ∈ ks, f g + (if g0 = g then c else 0) = f g := by
          intro g hg
          rw [if_neg (by rintro rfl; exact hnot hg), Nat.add_zero]
        rw [List.map_congr_left hc]
      simp only [List.map_cons, List.sum_cons, htail]
      simp
      omega
    · have hk : ¬ g0 = k := fun he => (List.nodup_cons.mp hnd).1 (he ▸ h)
      simp only [List.map_cons, List.sum_cons, if_neg hk,
        ih (List.nodup_cons.mp hnd).2 h]
      omega

/-- A nodup list of keys covering every row's group tag splits any
`countP` over the table into the per-key filtered counts. -/
lemma countP_group_partition (p : Row → Bool) :
    ∀ (df : List Row) (ks : List String), ks.Nodup → (∀ r ∈ df, r.group ∈ ks) →
      (ks.map (fun g => (df.filter (fun x => decide (x.group = g))).countP p)).sum
        = df.countP p := by
  intro df
  induction df with
  | nil => intro ks _ _; simp
  | cons r df ih =>
    intro ks hnd hcov
    have h1 : ∀ g ∈ ks, ((r :: df).filter (fun x => decide (x.group = g))).countP p
        = (df.filter (fun x => decide (x.group = g))).countP p
          + (if r.group = g then (if p r then 1 else 0) else 0) :=
      fun g _ => countP_filter_group_cons p r df g
    rw [List.map_congr_left h1,
      map_sum_add_ite _ _ _ ks hnd (hcov r (List.mem_cons_self r df)),
      ih ks hnd (fun x hx => hcov x (List.mem_cons_of_mem r hx)),
      List.countP_cons]

/-- C2: at every threshold, the per-group TP/FP/TN/FN of
`compute_group_metrics` sum to the confusion counts of the whole table,
and each group's `count` field is the number of rows carrying that group
tag — the groupby partition drops no row and double-counts none. -/
theorem group_confusion_partition (θ : ℚ) (pos : Int) (df : List Row) :
    ((computeGroupMetrics θ pos df).map (fun x => x.2.tp)).sum = overallTP θ pos df ∧
    ((computeGroupMetrics θ pos df).map (fun x => x.2.fp)).sum = overallFP θ pos df ∧
    ((computeGroupMetrics θ pos df).map (fun x => x.2.tn)).sum = overallTN θ pos df ∧
    ((computeGroupMetrics θ pos df).map (fun x => x.2.fn)).sum = overallFN θ pos df ∧
    (∀ g m, (g, m) ∈ computeGroupMetrics θ pos df →
      m.count = df.countP (fun r => decide (r.group = g))) := by
  have hnd : ((df.map Row.group).dedup).Nodup := List.nodup_dedup _
  have hcov : ∀ r ∈ df, r.group ∈ (df.map Row.group).dedup :=
    fun r hr => List.mem_dedup.mpr (List.mem_map_of_mem Row.group hr)
  refine ⟨?_, ?_, ?_, ?_, ?_⟩
  · rw [computeGroupMetrics, List.map_map]
    exact countP_group_partition _ df _ hnd hcov
  · rw [computeGroupMetrics, List.map_map]
    exact countP_group_partition _ df _ hnd hcov
  · rw [computeGroupMetrics, List.map_map]
    exact countP_group_partition _ df _ hnd hcov
  · rw [computeGroupMetrics, List.map_map]
    exact countP_group_partition _ df _ hnd hcov
  · intro g m hm
    rcases List.mem_map.mp hm with ⟨g', _, hg'⟩
    cases hg'
    simp only [groupMetricsOf, List.countP_eq_length_filter]

/-- C1: in every group record produced by `compute_group_metrics`, each of
TPR, FPR, TNR, FNR and precision is `0` when its denominator (TP+FN,
FP+TN, TN+FP, FN+TP, TP+FP respectively) is zero, and is the usual count
ratio otherwise — total values, never NaN and never an error. -/
theorem zero_denominator_rates (θ : ℚ) (pos : Int) (df : List Row)
    (g : String) (m : GroupMetrics) (hm : (g, m) ∈ computeGroupMetrics θ pos df) :
    (m.tp + m.fn = 0 → m.tpr = 0) ∧
    (0 < m.tp + m.fn → m.tpr = (m.tp : ℚ) / ((m.tp + m.fn : Nat) : ℚ)) ∧
    (m.fp + m.tn = 0 → m.fpr = 0) ∧
    (0 < m.fp + m.tn → m.fpr = (m.fp : ℚ) / ((m.fp + m.tn : Nat) : ℚ)) ∧
    (m.tn + m.fp = 0 → m.tnr = 0) ∧
    (0 < m.tn + m.fp → m.tnr = (m.tn : ℚ) / ((m.tn + m.fp : Nat) : ℚ)) ∧
    (m.fn + m.tp = 0 → m.fnr = 0) ∧
    (0 < m.fn + m.tp → m.fnr = (m.fn : ℚ) / ((m.fn + m.tp : Nat) : ℚ)) ∧
    (m.tp + m.fp = 0 → m.«precision» = 0) ∧
    (0 < m.tp + m.fp → m.«precision» = (m.tp : ℚ) / ((m.tp + m.fp : Nat) : ℚ)) := by
  rcases List.mem_map.mp hm with ⟨g', _, hg'⟩
  cases hg'
  simp only [groupMetricsOf]
  refine ⟨?_, ?_, ?_, ?_, ?_, ?_, ?_, ?_, ?_, ?_⟩ <;> intro h
  · rw [if_neg (by omega)]
  · rw [if_pos h]
  · rw [if_neg (by omega)]
  · rw [if_pos h]
  · rw [if_neg (by omega)]
  · rw [if_pos h]
  · rw [if_neg (by omega)]
  · rw [if_pos h]
  · rw [if_neg (by omega)]
  · rw [if_pos h]

/-- Python `max` over a list of rates. `compute_fairness_metrics` only
applies it to lists with at least two elements (the `< 2` guard at line
458), so the empty case — where Python `max` would raise — is rendered
as `0` and is unreachable. -/
def pymax : List ℚ → ℚ
  | [] => 0
  | x :: xs => xs.foldl max x

/-- Python `min` over a list of rates; empty case unreachable, as for
`pymax`. -/
def pymin : List ℚ → ℚ
  | [] => 0
  | x :: xs => xs.foldl min x

/-- The disparity dictionary built by
`MetricsEngine.compute_fairness_metrics` (loan_approval.py lines
472-478). -/
structure FairnessMetrics where
  demographic_parity_difference : ℚ
  demographic_parity_ratio : ℚ
  equal_opportunity_difference : ℚ
  equalized_odds_difference : ℚ
  disparate_impact : ℚ
deriving DecidableEq, Repr

/-- `MetricsEngine.compute_fairness_metrics` (lines 457-478): with fewer
than 2 groups the empty dictionary (modelled `none`) is returned;
otherwise the five disparity statistics over the groups' approval rates,
TPRs and FPRs. -/
def computeFairnessMetrics (gm : List (String × GroupMetrics)) :
    Option FairnessMetrics :=
  if gm.length < 2 then none
  else
    let approval_rates := gm.map (fun x => x.2.approval_rate)
    let tprs := gm.map (fun x => x.2.tpr)
    let fprs := gm.map (fun x => x.2.fpr)
    let dp_diff := pymax approval_rates - pymin approval_rates
    let dp_ratio :=
      if 0 < pymax approval_rates then pymin approval_rates / pymax approval_rates
      else 0
    let eo_diff := pymax tprs - pymin tprs
    let tpr_diff := pymax tprs - pymin tprs
    let fpr_diff := pymax fprs - pymin fprs
    let eq_odds_diff := max tpr_diff fpr_diff
    some { demographic_parity_difference := dp_diff,
           demographic_parity_ratio := dp_ratio,
           equal_opportunity_difference := eo_diff,
           equalized_odds_difference := eq_odds_diff,
           disparate_impact := dp_ratio }

/-- The error taxonomy the spec names for the metrics engine (§7).
`loan_approval.py` defines no such exception classes and
`MetricsEngine`'s methods contain no `raise` statement, so the `Except`
embeddings below return `.ok` on every input. -/
inductive EngineError where
  | invalidThreshold (θ : ℚ)
  | invalidPartition (group : String)
deriving DecidableEq, Repr

/-- `compute_group_metrics` with its error behaviour made explicit:
`MetricsEngine.__init__` (lines 397-399) stores the threshold without
validating it and the method body raises nothing, so every input —
any threshold included — produces a result. -/
def computeGroupMetricsE (θ : ℚ) (pos : Int) (df : List Row) :
    Except EngineError (List (String × GroupMetrics)) :=
  .ok (computeGroupMetrics θ pos df)

/-- `compute_fairness_metrics` with its error behaviour made explicit:
the `< 2` guard returns the empty dictionary, it does not raise. -/
def computeFairnessMetricsE (gm : List (String × GroupMetrics)) :
    Except EngineError (Option FairnessMetrics) :=
  .ok (computeFairnessMetrics gm)

/-- One entry of the flag list built by `MetricsEngine.identify_flags`
(lines 480-490): which rule fired and the observed value its message
embeds. -/
inductive Flag where
  | disparateImpact (v : ℚ)
  | demographicParityDiff (v : ℚ)
  | equalOpportunityDiff (v : ℚ)
  | equalizedOddsDiff (v : ℚ)
deriving DecidableEq, Repr

/-- `fairness_metrics.get('disparate_impact', 1.0)` (line 482): the
empty dictionary yields the non-triggering default `1.0`. -/
def getDisparateImpact : Option FairnessMetrics → ℚ
  | none => 1
  | some fm => fm.disparate_impact

/-- `fairness_metrics.get('demographic_parity_difference', 0.0)`
(line 484). -/
def getDemographicParityDifference : Option FairnessMetrics → ℚ
  | none => 0
  | some fm => fm.demographic_parity_difference

/-- `fairness_metrics.get('equal_opportunity_difference', 0.0)`
(line 486). -/
def getEqualOpportunityDifference : Option FairnessMetrics → ℚ
  | none => 0
  | some fm => fm.equal_opportunity_difference

/-- `fairness_metrics.get('equalized_odds_difference', 0.0)`
(line 488). -/
def getEqualizedOddsDifference : Option FairnessMetrics → ℚ
  | none => 0
  | some fm => fm.equalized_odds_difference

/-- `MetricsEngine.identify_flags` (lines 480-490): the four policy
rules checked in the fixed source order, each appending one flag. -/
def identifyFlags (fm : Option FairnessMetrics) : List Flag :=
  (if getDisparateImpact fm < 4/5 then [Flag.disparateImpact (getDisparateImpact fm)] else []) ++
  (if 1/10 < getDemographicParityDifference fm then
    [Flag.demographicParityDiff (getDemographicParityDifference fm)] else []) ++
  (if 1/10 < getEqualOpportunityDifference fm then
    [Flag.equalOpportunityDiff (getEqualOpportunityDifference fm)] else []) ++
  (if 1/10 < getEqualizedOddsDifference fm then
    [Flag.equalizedOddsDiff (getEqualizedOddsDifference fm)] else [])

/-- `'FAIL' if flags else 'PASS'` — `ReportGenerator.generate_summary_json`
line 612 and `MLFairnessEvaluator.run_evaluation` line 727. -/
def assessment (flags : List Flag) : String :=
  if flags = [] then "PASS" else "FAIL"

/-- C3: with at least 2 groups, `compute_fairness_metrics` returns
demographic-parity difference max−min approval rate, ratio min/max
(0 when max is 0), equal-opportunity difference max−min TPR, equalized
odds the larger of the TPR gap and the FPR gap (not their sum), and
disparate impact equal to the demographic-parity ratio. -/
theorem fairness_metrics_formulas (gm : List (String × GroupMetrics))
    (h2 : 2 ≤ gm.length) :
    ∃ fm, computeFairnessMetrics gm = some fm ∧
      fm.demographic_parity_difference
        = pymax (gm.map (fun x => x.2.approval_rate))
          - pymin (gm.map (fun x => x.2.approval_rate)) ∧
      fm.demographic_parity_ratio
        = (if 0 < pymax (gm.map (fun x => x.2.approval_rate)) then
            pymin (gm.map (fun x => x.2.approval_rate))
              / pymax (gm.map (fun x => x.2.approval_rate))
          else 0) ∧
      fm.equal_opportunity_difference
        = pymax (gm.map (fun x => x.2.tpr)) - pymin (gm.map (fun x => x.2.tpr)) ∧
      fm.equalized_odds_difference
        = max (pymax (gm.map (fun x => x.2.tpr)) - pymin (gm.map (fun x => x.2.tpr)))
            (pymax (gm.map (fun x => x.2.fpr)) - pymin (gm.map (fun x => x.2.fpr))) ∧
      fm.disparate_impact = fm.demographic_parity_ratio := by
  rw [computeFairnessMetrics, if_neg (by omega)]
  exact ⟨_, rfl, rfl, rfl, rfl, rfl, rfl⟩

/-- C9: with fewer than 2 groups `compute_fairness_metrics` returns the
empty disparity result and raises no exception. -/
theorem insufficient_groups_empty (gm : List (String × GroupMetrics))
    (h : gm.length < 2) :
    computeFairnessMetricsE gm = .ok none := by
  rw [computeFairnessMetricsE, computeFairnessMetrics, if_pos h]

/-- C4 (amended): the confusion-metrics computation performs no threshold
validation and never raises `InvalidThresholdError` — every threshold,
inside or outside `[0,1]`, yields a result. -/
theorem no_threshold_validation (θ : ℚ) (pos : Int) (df : List Row)
    (e : EngineError) : computeGroupMetricsE θ pos df ≠ .error e := by
  simp [computeGroupMetricsE]

/-- C10: when the evaluated table carries a single group, the disparity
map is empty, `identify_flags` returns no flag, and the report's
assessment is `PASS`. -/
theorem single_group_passes (θ : ℚ) (pos : Int) (df : List Row) (g : String)
    (hone : (df.map Row.group).dedup = [g]) :
    computeFairnessMetrics (computeGroupMetrics θ pos df) = none ∧
    identifyFlags (computeFairnessMetrics (computeGroupMetrics θ pos df)) = [] ∧
    assessment (identifyFlags (computeFairnessMetrics (computeGroupMetrics θ pos df))) = "PASS" := by
  have hlen : (computeGroupMetrics θ pos df).length = 1 := by
    rw [computeGroupMetrics, List.length_map, hone, List.length_singleton]
  have hnone : computeFairnessMetrics (computeGroupMetrics θ pos df) = none := by
    rw [computeFairnessMetrics, if_pos (by omega)]
  have hflags : identifyFlags none = [] := by
    norm_num [identifyFlags, getDisparateImpact, getDemographicParityDifference,
      getEqualOpportunityDifference, getEqualizedOddsDifference]
  refine ⟨hnone, ?_, ?_⟩ <;> rw [hnone, hflags]
  rfl

lemma countP_and_split (a b : Row → Bool) (l : List Row) :
    l.countP (fun r => a r && b r) + l.countP (fun r => !(a r) && b r)
      = l.countP b := by
  induction l with
  | nil => simp
  | cons x xs ih =>
    by_cases ha : a x <;> by_cases hb : b x <;>
      simp [List.countP_cons, ha, hb] <;> omega

/-- A rate with the source's zero-denominator guard shrinks when its
numerator shrinks and its denominator is unchanged. -/
lemma guarded_rate_mono (n₁ d₁ n₂ d₂ : Nat) (hsum : n₁ + d₁ = n₂ + d₂)
    (hnum : n₂ ≤ n₁) :
    (if 0 < n₂ + d₂ then (n₂ : ℚ) / ((n₂ + d₂ : Nat) : ℚ) else 0)
      ≤ (if 0 < n₁ + d₁ then (n₁ : ℚ) / ((n₁ + d₁ : Nat) : ℚ) else 0) := by
  split_ifs with h₂ h₁
  · rw [show ((n₁ + d₁ : Nat) : ℚ) = ((n₂ + d₂ : Nat) : ℚ) by rw [hsum]]
    exact (div_le_div_iff_of_pos_right (by exact_mod_cast h₂)).mpr (by exact_mod_cast hnum)
  · omega
  · positivity
  · exact le_refl 0

/-- C5: threshold monotonicity — with predicted label 1 iff the
thresholded column is at least θ (inclusive boundary), raising the
threshold cannot increase any group's TPR or FPR. -/
theorem threshold_monotonicity (θ₁ θ₂ : ℚ) (pos : Int) (df : List Row)
    (g : String) (m₁ m₂ : GroupMetrics) (hle : θ₁ ≤ θ₂)
    (h₁ : (g, m₁) ∈ computeGroupMetrics θ₁ pos df)
    (h₂ : (g, m₂) ∈ computeGroupMetrics θ₂ pos df) :
    m₂.tpr ≤ m₁.tpr ∧ m₂.fpr ≤ m₁.fpr := by
  rcases List.mem_map.mp h₁ with ⟨g₁, _, hg₁⟩
  injection hg₁ with hga hgm₁
  subst hga
  rcases List.mem_map.mp h₂ with ⟨g₂, _, hg₂⟩
  injection hg₂ with hgb hgm₂
  subst hgb
  subst hgm₁
  subst hgm₂
  set sub := df.filter (fun r => decide (r.group = g₂)) with hsub
  have hpred : ∀ r ∈ sub, predPos θ₂ r = true → predPos θ₁ r = true := by
    intro r _ h
    simp only [predPos, decide_eq_true_eq] at h ⊢
    exact le_trans hle h
  constructor
  · -- TPR: the positives of the group are the unchanged denominator
    have hden₁ : sub.countP (fun r => predPos θ₁ r && isPos pos r)
        + sub.countP (fun r => !(predPos θ₁ r) && isPos pos r)
        = sub.countP (isPos pos) := countP_and_split _ _ _
    have hden₂ : sub.countP (fun r => predPos θ₂ r && isPos pos r)
        + sub.countP (fun r => !(predPos θ₂ r) && isPos pos r)
        = sub.countP (isPos pos) := countP_and_split _ _ _
    have hnum : sub.countP (fun r => predPos θ₂ r && isPos pos r)
        ≤ sub.countP (fun r => predPos θ₁ r && isPos pos r) := by
      apply List.countP_mono_left
      intro r hr h
      rcases Bool.and_eq_true_iff.mp h with ⟨hp, hq⟩
      exact Bool.and_eq_true_iff.mpr ⟨hpred r hr hp, hq⟩
    show (groupMetricsOf θ₂ pos sub).tpr ≤ (groupMetricsOf θ₁ pos sub).tpr
    simp only [groupMetricsOf]
    exact guarded_rate_mono _ _ _ _ (hden₁.trans hden₂.symm) hnum
  · -- FPR: the negatives of the group are the unchanged denominator
    have hden₁ : sub.countP (fun r => predPos θ₁ r && !(isPos pos r))
        + sub.countP (fun r => !(predPos θ₁ r) && !(isPos pos r))
        = sub.countP (fun r => !(isPos pos r)) := countP_and_split _ _ _
    have hden₂ : sub.countP (fun r => predPos θ₂ r && !(isPos pos r))
        + sub.countP (fun r => !(predPos θ₂ r) && !(isPos pos r))
        = sub.countP (fun r => !(isPos pos r)) := countP_and_split _ _ _
    have hnum : sub.countP (fun r => predPos θ₂ r && !(isPos pos r))
        ≤ sub.countP (fun r => predPos θ₁ r && !(isPos pos r)) := by
      apply List.countP_mono_left
      intro r hr h
      rcases Bool.and_eq_true_iff.mp h with ⟨hp, hq⟩
      exact Bool.and_eq_true_iff.mpr ⟨hpred r hr hp, hq⟩
    show (groupMetricsOf θ₂ pos sub).fpr ≤ (groupMetricsOf θ₁ pos sub).fpr
    simp only [groupMetricsOf]
    exact guarded_rate_mono _ _ _ _ (hden₁.trans hden₂.symm) hnum

lemma le_foldl_max (xs : List ℚ) (a : ℚ) : a ≤ xs.foldl max a := by
  induction xs generalizing a with
  | nil => exact le_refl a
  | cons b xs ih => exact le_trans (le_max_left a b) (ih (max a b))

lemma mem_le_foldl_max (xs : List ℚ) (a : ℚ) : ∀ y ∈ xs, y ≤ xs.foldl max a := by
  induction xs generalizing a with
  | nil => intro y hy; cases hy
  | cons b xs ih =>
    intro y hy
    rcases List.mem_cons.mp hy with rfl | hy
    · exact le_trans (le_max_right a y) (le_foldl_max xs (max a y))
    · exact ih (max a b) y hy

lemma foldl_max_mem (xs : List ℚ) (a : ℚ) :
    xs.foldl max a = a ∨ xs.foldl max a ∈ xs := by
  induction xs generalizing a with
  | nil => exact Or.inl rfl
  | cons b xs ih =>
    rcases ih (max a b) with h | h
    · rcases max_choice a b with hab | hab
      · exact Or.inl (by rw [List.foldl_cons, h, hab])
      · exact Or.inr (by rw [List.foldl_cons, h, hab]; exact List.mem_cons_self b xs)
    · exact Or.inr (List.mem_cons_of_mem b h)

lemma foldl_min_le (xs : List ℚ) (a : ℚ) : xs.foldl min a ≤ a := by
  induction xs generalizing a with
  | nil => exact le_refl a
  | cons b xs ih => exact le_trans (ih (min a b)) (min_le_left a b)

lemma foldl_min_le_mem (xs : List ℚ) (a : ℚ) : ∀ y ∈ xs, xs.foldl min a ≤ y := by
  induction xs generalizing a with
  | nil => intro y hy; cases hy
  | cons b xs ih =>
    intro y hy
    rcases List.mem_cons.mp hy with rfl | hy
    · exact le_trans (foldl_min_le xs (min a y)) (min_le_right a y)
    · exact ih (min a b) y hy

lemma foldl_min_mem (xs : List ℚ) (a : ℚ) :
    xs.foldl min a = a ∨ xs.foldl min a ∈ xs := by
  induction xs generalizing a with
  | nil => exact Or.inl rfl
  | cons b xs ih =>
    rcases ih (min a b) with h | h
    · rcases min_choice a b with hab | hab
      · exact Or.inl (by rw [List.foldl_cons, h, hab])
      · exact Or.inr (by rw [List.foldl_cons, h, hab]; exact List.mem_cons_self b xs)
    · exact Or.inr (List.mem_cons_of_mem b h)

lemma pymax_mem (x : ℚ) (xs : List ℚ) : pymax (x :: xs) ∈ x :: xs := by
  show xs.foldl max x ∈ x :: xs
  rcases foldl_max_mem xs x with h | h
  · rw [h]; exact List.mem_cons_self x xs
  · exact List.mem_cons_of_mem x h

lemma pymin_mem (x : ℚ) (xs : List ℚ) : pymin (x :: xs) ∈ x :: xs := by
  show xs.foldl min x ∈ x :: xs
  rcases foldl_min_mem xs x with h | h
  · rw [h]; exact List.mem_cons_self x xs
  · exact List.mem_cons_of_mem x h

lemma mem_le_pymax (x y : ℚ) (xs : List ℚ) (hy : y ∈ x :: xs) :
    y ≤ pymax (x :: xs) := by
  rcases List.mem_cons.mp hy with rfl | hy
  · exact le_foldl_max xs y
  · exact mem_le_foldl_max xs x y hy

lemma pymin_le_mem (x y : ℚ) (xs : List ℚ) (hy : y ∈ x :: xs) :
    pymin (x :: xs) ≤ y := by
  rcases List.mem_cons.mp hy with rfl | hy
  · exact foldl_min_le xs y
  · exact foldl_min_le_mem xs x y hy

lemma pymin_le_pymax (x : ℚ) (xs : List ℚ) :
    pymin (x :: xs) ≤ pymax (x :: xs) :=
  le_trans (pymin_le_mem x x xs (List.mem_cons_self x xs))
    (mem_le_pymax x x xs (List.mem_cons_self x xs))

/-- C6 (amended): with ≥2 groups whose approval rates lie in `[0,1]`, the
demographic-parity ratio lies in `[0,1]` and equals min/max approval rate
(both are 0 when the max is 0); when all groups share one approval rate
the difference is 0, and the ratio is 1 provided that common rate is
positive (it is 0, not 1, when every approval rate is 0). -/
theorem dp_ratio_bounds (gm : List (String × GroupMetrics)) (fm : FairnessMetrics)
    (h2 : 2 ≤ gm.length)
    (hb : ∀ x ∈ gm, 0 ≤ x.2.approval_rate ∧ x.2.approval_rate ≤ 1)
    (hfm : computeFairnessMetrics gm = some fm) :
    0 ≤ fm.demographic_parity_ratio ∧ fm.demographic_parity_ratio ≤ 1 ∧
    fm.demographic_parity_ratio
      = pymin (gm.map (fun x => x.2.approval_rate))
        / pymax (gm.map (fun x => x.2.approval_rate)) ∧
    ((∀ x ∈ gm, ∀ y ∈ gm, x.2.approval_rate = y.2.approval_rate) →
      fm.demographic_parity_difference = 0 ∧
      (0 < pymax (gm.map (fun x => x.2.approval_rate)) →
        fm.demographic_parity_ratio = 1)) := by
  obtain ⟨x₀, gm', rfl⟩ : ∃ x₀ gm', gm = x₀ :: gm' := by
    cases gm with
    | nil => simp at h2
    | cons a l => exact ⟨a, l, rfl⟩
  set rates := ((x₀ :: gm').map (fun x => x.2.approval_rate)) with hrates
  obtain ⟨r₀, rs, hr⟩ : ∃ r₀ rs, rates = r₀ :: rs := ⟨_, _, rfl⟩
  have hratemem : ∀ y ∈ rates, 0 ≤ y ∧ y ≤ 1 := by
    intro y hy
    rcases List.mem_map.mp hy with ⟨x, hx, rfl⟩
    exact hb x hx
  have hmaxmem : pymax rates ∈ rates := hr ▸ pymax_mem r₀ rs
  have hminmem : pymin rates ∈ rates := hr ▸ pymin_mem r₀ rs
  have hminmax : pymin rates ≤ pymax rates := hr ▸ pymin_le_pymax r₀ rs
  have hmax0 : 0 ≤ pymax rates := (hratemem _ hmaxmem).1
  have hmin0 : 0 ≤ pymin rates := (hratemem _ hminmem).1
  rw [computeFairnessMetrics, if_neg (by omega)] at hfm
  injection hfm with hfm
  subst hfm
  refine ⟨?_, ?_, ?_, ?_⟩
  · by_cases hpos : 0 < pymax rates
    · simp only [if_pos hpos]
      exact div_nonneg hmin0 hmax0
    · simp only [if_neg hpos]
      exact le_refl 0
  · by_cases hpos : 0 < pymax rates
    · simp only [if_pos hpos]
      exact (div_le_one hpos).mpr hminmax
    · simp only [if_neg hpos]
      norm_num
  · by_cases hpos : 0 < pymax rates
    · simp only [if_pos hpos]
    · simp only [if_neg hpos]
      have hM : pymax rates = 0 := le_antisymm (not_lt.mp hpos) hmax0
      have hm : pymin rates = 0 := le_antisymm (hM ▸ hminmax) hmin0
      rw [hM, hm, div_zero]
  · intro hall
    have hallr : ∀ a ∈ rates, ∀ b ∈ rates, a = b := by
      intro a ha b hbmem
      rcases List.mem_map.mp ha with ⟨x, hx, rfl⟩
      rcases List.mem_map.mp hbmem with ⟨y, hy, rfl⟩
      exact hall x hx y hy
    have heq : pymax rates = pymin rates := hallr _ hmaxmem _ hminmem
    constructor
    · simp only [heq, sub_self]
    · intro hpos
      simp only [if_pos hpos, ← heq]
      exact div_self (ne_of_gt hpos)

/-- A group record with prescribed approval rate, TPR and FPR and zero
everywhere else, for instantiating the disparity formulas on concrete
inputs. -/
def gmConst (rate tprv fprv : ℚ) : GroupMetrics :=
  { tp := 0, fp := 0, tn := 0, fn := 0, count := 0,
    approval_rate := rate, accuracy := 0,
    tpr := tprv, fpr := fprv, tnr := 0, fnr := 0,
    «precision» := 0, «recall» := 0, f1_score := 0 }

/-- C6 counterexample: two groups with equal approval rates, both 0 — the
code returns demographic-parity ratio 0 (line 466's `else 0.0` branch),
not 1, so equal approval rates alone do not force ratio 1. -/
theorem dp_ratio_not_one_at_zero_rates :
    ((computeFairnessMetrics [("A", gmConst 0 0 0), ("B", gmConst 0 0 0)]).map
      FairnessMetrics.demographic_parity_ratio = some 0) ∧
    ((computeFairnessMetrics [("A", gmConst 0 0 0), ("B", gmConst 0 0 0)]).map
      FairnessMetrics.demographic_parity_ratio ≠ some 1) := by
  constructor
  · rfl
  · decide

/-- A small scored table over groups "A" and "B"; group "A" holds only
positive-label rows, so its FP+TN denominator is zero. -/
def sampleRows : List Row :=
  [{ label := 1, group := "A", prob := 2, pred := 2 },
   { label := 1, group := "A", prob := 0, pred := 0 },
   { label := 0, group := "B", prob := 1, pred := 1 },
   { label := 1, group := "B", prob := 0, pred := 0 }]

/-- Group "A" of the sample table under `compute_group_metrics`. -/
def sampleMetricsA (θ : ℚ) : GroupMetrics :=
  groupMetricsOf θ 1 (sampleRows.filter (fun r => decide (r.group = "A")))

/-- Group "B" of the sample table under `compute_group_metrics`. -/
def sampleMetricsB (θ : ℚ) : GroupMetrics :=
  groupMetricsOf θ 1 (sampleRows.filter (fun r => decide (r.group = "B")))

/-- C4 counterexample: at threshold 3/2, which is outside `[0,1]`, the
confusion-metrics computation returns a result instead of raising
`InvalidThresholdError` — the source validates no threshold. -/
theorem no_error_outside_unit_interval :
    ((1 : ℚ) < 3/2) ∧ (computeGroupMetricsE (3/2) 1 sampleRows).isOk = true := by
  constructor
  · norm_num
  · rfl

/-- One scored verification pair as appended by `ResultsGenerator.add`
(face_bias_evaluator.py lines 219-227): group tag, augmentation tag,
genuine label, cosine similarity, and the thresholded prediction
`int(sim >= threshold)`. -/
structure FacePair where
  group : String
  aug : String
  label : Nat
  similarity : ℚ
  prediction : Nat
deriving DecidableEq, Repr

/-- `ResultsGenerator.add` (lines 219-227). -/
def ResultsGenerator.add (threshold : ℚ) (group aug : String) (label : Nat)
    (sim : ℚ) : FacePair :=
  { group := group, aug := aug, label := label, similarity := sim,
    prediction := if threshold ≤ sim then 1 else 0 }

/-- `np.all(emb == 0)` — the all-zero-embedding skip condition of
`run_evaluation` (lines 306, 317). -/
def isZeroVec (v : List ℚ) : Bool := v.all (fun q => decide (q = 0))

/-- The per-image body of `FaceBiasEvaluator.run_evaluation` (lines
304-324) for one successfully decoded image: embed it, skip the whole
image when its embedding is all-zero, otherwise append one genuine pair
(label 1) per entry of `["original"] + self.augmentations`, skipping
augmented variants whose embedding is all-zero.  Images, the embedding
extractor, the augmentation kernels and the similarity function (sklearn
cosine similarity in the source) are external collaborators, so they are
parameters. -/
def pairsForImage {α : Type} (embedFn : α → List ℚ) (augmentFn : α → String → α)
    (simFn : List ℚ → List ℚ → ℚ) (θ : ℚ) (augs : List String)
    (group : String) (img : α) : List FacePair :=
  let origEmb := embedFn img
  if isZeroVec origEmb then []
  else
    ("original" :: augs).filterMap (fun aug =>
      let augEmb := embedFn (augmentFn img aug)
      if isZeroVec augEmb then none
      else some (ResultsGenerator.add θ group aug 1 (simFn origEmb augEmb)))

/-- The full pair-generation loop of `run_evaluation` (lines 289-324)
over the dataset's group directories and their decoded image files. -/
def runEvaluationPairs {α : Type} (embedFn : α → List ℚ) (augmentFn : α → String → α)
    (simFn : List ℚ → List ℚ → ℚ) (θ : ℚ) (augs : List String)
    (dataset : List (String × List α)) : List FacePair :=
  dataset.flatMap (fun gi =>
    gi.2.flatMap (pairsForImage embedFn augmentFn simFn θ augs gi.1))

/-- The `"FMR"` entry of `ResultsGenerator.compute_metrics` (lines
231-233): the mean over all pairs of the indicator
`(label == 0) & (prediction == 1)`.  pandas' mean of an empty frame is
NaN, but `run_evaluation` raises before computing metrics when no image
was processed, so the empty case (rendered 0 by rational division) is
unreachable. -/
def overallFMR (pairs : List FacePair) : ℚ :=
  (pairs.countP (fun p => decide (p.label = 0) && decide (p.prediction = 1)) : ℚ)
    / (pairs.length : ℚ)

/-- C7 counterexample: one identity — a single decoded image — with 3
augmented variants and nonzero embeddings everywhere.  The loop at line
313 iterates `["original"] + self.augmentations`, pairing the original
also with itself, so 4 pairs are generated, not 3. -/
theorem augmentation_pairs_count_cex :
    (runEvaluationPairs (fun _ : Nat => [1]) (fun i _ => i) (fun _ _ => 1) (1/2)
      ["a", "b", "c"] [("g", [0])]).length = 4 ∧
    ¬ (runEvaluationPairs (fun _ : Nat => [1]) (fun i _ => i) (fun _ _ => 1) (1/2)
      ["a", "b", "c"] [("g", [0])]).length = 3 := by
  constructor <;> decide

/-- C7 (amended): an identity whose original and augmented embeddings are
all nonzero contributes exactly k+1 genuine pairs for k augmented
variants — the k original-vs-augmented pairs plus one
original-vs-original pair from the `"original"` loop entry.  Every pair
either way carries genuine label 1, and the FMR of any generated pair
list is 0 at every threshold. -/
theorem augmentation_pairs_genuine {α : Type} (embedFn : α → List ℚ)
    (augmentFn : α → String → α) (simFn : List ℚ → List ℚ → ℚ) (θ : ℚ)
    (augs : List String) (g : String) (img : α)
    (horig : isZeroVec (embedFn img) = false)
    (haug : ∀ aug, isZeroVec (embedFn (augmentFn img aug)) = false) :
    (pairsForImage embedFn augmentFn simFn θ augs g img).length = augs.length + 1 ∧
    (∀ dataset : List (String × List α),
      ∀ p ∈ runEvaluationPairs embedFn augmentFn simFn θ augs dataset, p.label = 1) ∧
    (∀ dataset : List (String × List α),
      overallFMR (runEvaluationPairs embedFn augmentFn simFn θ augs dataset) = 0) := by
  have hlab : ∀ dataset : List (String × List α),
      ∀ p ∈ runEvaluationPairs embedFn augmentFn simFn θ augs dataset,
        p.label = 1 := by
    intro dataset p hp
    rw [runEvaluationPairs] at hp
    rcases List.mem_flatMap.mp hp with ⟨gi, _, hpgi⟩
    rcases List.mem_flatMap.mp hpgi with ⟨i, _, hpi⟩
    rw [pairsForImage] at hpi
    split at hpi
    · cases hpi
    · rcases List.mem_filterMap.mp hpi with ⟨aug, _, haug'⟩
      dsimp only at haug'
      split at haug'
      · cases haug'
      · injection haug' with haug'
        rw [← haug']
        rfl
  refine ⟨?_, hlab, ?_⟩
  · have hall : ∀ l : List String,
        (l.filterMap (fun aug =>
          let augEmb := embedFn (augmentFn img aug)
          if isZeroVec augEmb then none
          else some (ResultsGenerator.add θ g aug 1
            (simFn (embedFn img) augEmb)))).length = l.length := by
      intro l
      induction l with
      | nil => rfl
      | cons a l ih => simp [List.filterMap_cons, haug a, ih]
    rw [pairsForImage]
    rw [if_neg (by rw [horig]; exact Bool.false_ne_true)]
    rw [hall ("original" :: augs), List.length_cons]
  · intro dataset
    rw [overallFMR]
    have hz : (runEvaluationPairs embedFn augmentFn simFn θ augs dataset).countP
        (fun p => decide (p.label = 0) && decide (p.prediction = 1)) = 0 := by
      rw [List.countP_eq_zero]
      intro p hp
      have := hlab dataset p hp
      simp [this]
    rw [hz]
    simp

/-- The state of NumPy's module-global random generator as `bootstrap_ci`
consumes it: an abstract stream `g` of index draws and the number of
draws consumed so far.  The source (loan_approval.py line 390) calls
`np.random.choice` on the shared global generator — there is no seed
parameter and no injected sampler — so the global state is threaded
through the embedding explicitly. -/
structure RandState where
  g : Nat → Nat
  pos : Nat

/-- One bootstrap resample, `np.random.choice(data, size=n, replace=True)`
(line 390): the next `n = len(data)` draws of the stream starting at
offset `off`, each reduced mod `len(data)` to index into `data`. -/
def npChoice (data : List ℚ) (g : Nat → Nat) (off : Nat) : List ℚ :=
  (List.range data.length).map (fun i => data.getD (g (off + i) % data.length) 0)

/-- Ascending insertion step for the sort inside `np.percentile`. -/
def insertSorted (x : ℚ) : List ℚ → List ℚ
  | [] => [x]
  | y :: ys => if x ≤ y then x :: y :: ys else y :: insertSorted x ys

/-- The ascending sort `np.percentile` performs on its input. -/
def pysortAsc (l : List ℚ) : List ℚ := l.foldr insertSorted []

/-- `np.percentile(xs, q)` with the default linear interpolation: with
`h = (n-1)·q/100` the result interpolates the sorted values at positions
`⌊h⌋` and `⌊h⌋+1` (clamped to the last element). -/
def npPercentile (xs : List ℚ) (q : ℚ) : ℚ :=
  let s := pysortAsc xs
  let n := s.length
  if n = 0 then 0
  else
    let h : ℚ := ((n : ℚ) - 1) * q / 100
    let lo : Nat := (Rat.floor h).toNat
    let frac : ℚ := h - ((Rat.floor h : Int) : ℚ)
    let a := s.getD lo 0
    let b := s.getD (min (lo + 1) (n - 1)) 0
    a + frac * (b - a)

/-- `bootstrap_ci` (loan_approval.py lines 383-394): the NaN pair
(modelled `none`) on empty data; otherwise `n_bootstrap` consecutive
resamples of size `n = len(data)` drawn from the global stream, the
statistic applied to each, and the `100·(α/2)` and `100·(1-α/2)`
percentiles of those statistics.  The returned state has advanced past
every draw the call consumed. -/
def bootstrap_ci (st : RandState) (data : List ℚ) (statFn : List ℚ → ℚ)
    (nBootstrap : Nat) (alpha : ℚ) : Option (ℚ × ℚ) × RandState :=
  if data.length = 0 then (none, st)
  else
    let n := data.length
    let stats := (List.range nBootstrap).map
      (fun b => statFn (npChoice data st.g (st.pos + b * n)))
    let lower := npPercentile stats (100 * (alpha / 2))
    let upper := npPercentile stats (100 * (1 - alpha / 2))
    (some (lower, upper), { g := st.g, pos := st.pos + nBootstrap * n })

lemma npPercentile_singleton (x q : ℚ) : npPercentile [x] q = x := by
  have hfloor : Rat.floor 0 = 0 := rfl
  simp only [npPercentile, pysortAsc, List.foldr, insertSorted]
  norm_num [hfloor]

/-- A single resample (`n_bootstrap = 1`) makes both percentile bounds
the one resampled statistic. -/
lemma bootstrap_ci_one (st : RandState) (data : List ℚ) (statFn : List ℚ → ℚ)
    (alpha : ℚ) (h : ¬ data.length = 0) :
    bootstrap_ci st data statFn 1 alpha
      = (some (statFn (npChoice data st.g st.pos),
               statFn (npChoice data st.g st.pos)),
         { g := st.g, pos := st.pos + data.length }) := by
  rw [bootstrap_ci, if_neg h]
  simp [List.range_succ, npPercentile_singleton]

/-- C8 counterexample: `bootstrap_ci` takes no seed parameter, so the
only reproduction a caller can set up is seeding the global generator
once; two calls with identical data, statistic, bootstrap count and α
from that one seeded state then return different interval bounds, because
the first call advances the shared stream. -/
theorem bootstrap_ci_not_reproducible :
    ((bootstrap_ci ⟨fun n => if n < 2 then 0 else 1, 0⟩ [0, 1]
        (fun l => l.sum / (l.length : ℚ)) 1 (1/20)).1
      = some ((0 : ℚ), (0 : ℚ))) ∧
    ((bootstrap_ci (bootstrap_ci ⟨fun n => if n < 2 then 0 else 1, 0⟩ [0, 1]
        (fun l => l.sum / (l.length : ℚ)) 1 (1/20)).2 [0, 1]
        (fun l => l.sum / (l.length : ℚ)) 1 (1/20)).1
      = some ((1 : ℚ), (1 : ℚ))) := by
  have hA : npChoice [0, 1] (fun n => if n < 2 then 0 else 1) 0 = [0, 0] := by
    simp [npChoice, List.range_succ]
  have hB : npChoice [0, 1] (fun n => if n < 2 then 0 else 1) 2 = [1, 1] := by
    simp [npChoice, List.range_succ]
  have h2 : ¬ ([0, 1] : List ℚ).length = 0 := by decide
  constructor
  · rw [bootstrap_ci_one _ _ _ _ h2]
    dsimp only
    rw [hA]
    norm_num
  · rw [bootstrap_ci_one _ _ _ _ h2, bootstrap_ci_one _ _ _ _ h2]
    dsimp only
    norm_num [List.length_cons, List.length_nil, hB]

/-- C8 (amended): `bootstrap_ci` accepts no seed parameter — its
randomness is the shared global NumPy generator.  The computation is
nevertheless a pure function of the data, statistic, resample count, α
and the stream window it consumes: two invocations seeing the same
upcoming `n_bootstrap·n` draws return identical bounds (bootstrap
resampling being the only nondeterminism), and each call advances the
global position by exactly the draws it consumed. -/
theorem bootstrap_ci_deterministic_given_stream (st st' : RandState)
    (data : List ℚ) (statFn : List ℚ → ℚ) (nBootstrap : Nat) (alpha : ℚ)
    (hdraws : ∀ i < nBootstrap * data.length,
      st.g (st.pos + i) = st'.g (st'.pos + i)) :
    (bootstrap_ci st data statFn nBootstrap alpha).1
      = (bootstrap_ci st' data statFn nBootstrap alpha).1 ∧
    (bootstrap_ci st data statFn nBootstrap alpha).2.pos
      = st.pos + (if data.length = 0 then 0 else nBootstrap * data.length) := by
  by_cases hn : data.length = 0
  · refine ⟨?_, ?_⟩
    · rw [bootstrap_ci, bootstrap_ci, if_pos hn, if_pos hn]
    · rw [bootstrap_ci, if_pos hn, if_pos hn, Nat.add_zero]
  · have hstats : (List.range nBootstrap).map
        (fun b => statFn (npChoice data st.g (st.pos + b * data.length)))
        = (List.range nBootstrap).map
          (fun b => statFn (npChoice data st'.g (st'.pos + b * data.length))) := by
      apply List.map_congr_left
      intro b hb
      have hb' := List.mem_range.mp hb
      congr 1
      rw [npChoice, npChoice]
      apply List.map_congr_left
      intro i hi
      have hi' := List.mem_range.mp hi
      have hlt : b * data.length + i < nBootstrap * data.length := by
        calc b * data.length + i < b * data.length + data.length := by omega
          _ = (b + 1) * data.length := by ring
          _ ≤ nBootstrap * data.length := Nat.mul_le_mul_right _ hb'
      have key := hdraws (b * data.length + i) hlt
      rw [Nat.add_assoc st.pos (b * data.length) i,
        Nat.add_assoc st'.pos (b * data.length) i, key]
    constructor
    · rw [bootstrap_ci, bootstrap_ci, if_neg hn, if_neg hn]
      dsimp only
      rw [hstats]
    · rw [bootstrap_ci, if_neg hn, if_neg hn]

/-- Witness for C1 at the sample table: group "A" contains no
negative-label row, so its FPR denominator FP+TN is zero and its FPR
resolves to 0. -/
theorem zero_denominator_rates_witness :
    (("A", sampleMetricsA 1) ∈ computeGroupMetrics 1 1 sampleRows) ∧
    (sampleMetricsA 1).fp + (sampleMetricsA 1).tn = 0 ∧
    (sampleMetricsA 1).fpr = 0 := by
  have hmem : ("A", sampleMetricsA 1) ∈ computeGroupMetrics 1 1 sampleRows :=
    List.mem_map_of_mem _ (by decide)
  refine ⟨hmem, by decide, ?_⟩
  exact (zero_denominator_rates 1 1 sampleRows "A" (sampleMetricsA 1) hmem).2.2.1
    (by decide)

/-- Witness for C2 at the sample table: the per-group TPs sum to the
overall TP, and group "A" counts its two rows. -/
theorem group_confusion_partition_witness :
    ((computeGroupMetrics 1 1 sampleRows).map (fun x => x.2.tp)).sum
      = overallTP 1 1 sampleRows ∧
    (sampleMetricsA 1).count = sampleRows.countP (fun r => decide (r.group = "A")) := by
  have hmem : ("A", sampleMetricsA 1) ∈ computeGroupMetrics 1 1 sampleRows :=
    List.mem_map_of_mem _ (by decide)
  exact ⟨(group_confusion_partition 1 1 sampleRows).1,
    (group_confusion_partition 1 1 sampleRows).2.2.2.2 "A" (sampleMetricsA 1) hmem⟩

/-- Witness for C3: two groups with approval rates 1 and 0, TPRs 1 and 0,
FPRs 1 and 0 produce demographic-parity difference 1. -/
theorem fairness_metrics_formulas_witness :
    2 ≤ ([("A", gmConst 1 1 1), ("B", gmConst 0 0 0)]).length ∧
    (computeFairnessMetrics [("A", gmConst 1 1 1), ("B", gmConst 0 0 0)]).map
      FairnessMetrics.demographic_parity_difference = some 1 := by
  obtain ⟨fm, hfm, hdd, _⟩ :=
    fairness_metrics_formulas [("A", gmConst 1 1 1), ("B", gmConst 0 0 0)] (by decide)
  refine ⟨by decide, ?_⟩
  rw [hfm, Option.map_some', hdd]
  norm_num [gmConst, pymax, pymin, List.foldl, max_def, min_def]

/-- Witness for C5 at the sample table, thresholds 1 ≤ 2 on group "B":
both its TPR and its FPR do not increase. -/
theorem threshold_monotonicity_witness :
    ((1 : ℚ) ≤ 2) ∧
    (("B", sampleMetricsB 1) ∈ computeGroupMetrics 1 1 sampleRows) ∧
    (("B", sampleMetricsB 2) ∈ computeGroupMetrics 2 1 sampleRows) ∧
    (sampleMetricsB 2).tpr ≤ (sampleMetricsB 1).tpr ∧
    (sampleMetricsB 2).fpr ≤ (sampleMetricsB 1).fpr := by
  have hm1 : ("B", sampleMetricsB 1) ∈ computeGroupMetrics 1 1 sampleRows :=
    List.mem_map_of_mem _ (by decide)
  have hm2 : ("B", sampleMetricsB 2) ∈ computeGroupMetrics 2 1 sampleRows :=
    List.mem_map_of_mem _ (by decide)
  have h := threshold_monotonicity 1 2 1 sampleRows "B"
    (sampleMetricsB 1) (sampleMetricsB 2) (by norm_num) hm1 hm2
  exact ⟨by norm_num, hm1, hm2, h.1, h.2⟩

/-- Witness for C6 (amended): two groups sharing approval rate 1 — the
ratio is 1 and the difference 0; the bounds hold. -/
theorem dp_ratio_bounds_witness :
    2 ≤ ([("A", gmConst 1 0 0), ("B", gmConst 1 0 0)]).length ∧
    computeFairnessMetrics [("A", gmConst 1 0 0), ("B", gmConst 1 0 0)]
      = some { demographic_parity_difference := 0, demographic_parity_ratio := 1,
               equal_opportunity_difference := 0, equalized_odds_difference := 0,
               disparate_impact := 1 } ∧
    (0 : ℚ) ≤ 1 ∧
    ({ demographic_parity_difference := 0, demographic_parity_ratio := 1,
       equal_opportunity_difference := 0, equalized_odds_difference := 0,
       disparate_impact := 1 } : FairnessMetrics).demographic_parity_ratio ≤ 1 := by
  have hfm : computeFairnessMetrics [("A", gmConst 1 0 0), ("B", gmConst 1 0 0)]
      = some { demographic_parity_difference := 0, demographic_parity_ratio := 1,
               equal_opportunity_difference := 0, equalized_odds_difference := 0,
               disparate_impact := 1 } := by
    rw [computeFairnessMetrics, if_neg (by norm_num)]
    norm_num [gmConst, pymax, pymin, List.foldl, max_def, min_def]
  have h := dp_ratio_bounds [("A", gmConst 1 0 0), ("B", gmConst 1 0 0)] _
    (by norm_num) (by norm_num [gmConst]) hfm
  exact ⟨by norm_num, hfm, by norm_num, h.2.1⟩

/-- Witness for C7 (amended): one decoded image, three augmented
variants, nonzero embeddings — four genuine pairs and FMR 0. -/
theorem augmentation_pairs_genuine_witness :
    isZeroVec ((fun _ : Nat => [1]) 0) = false ∧
    (pairsForImage (fun _ : Nat => [1]) (fun i _ => i) (fun _ _ => 1) (1/2)
      ["a", "b", "c"] "g" 0).length = 3 + 1 ∧
    overallFMR (runEvaluationPairs (fun _ : Nat => [1]) (fun i _ => i)
      (fun _ _ => 1) (1/2) ["a", "b", "c"] [("g", [0])]) = 0 := by
  have h := augmentation_pairs_genuine (fun _ : Nat => [1]) (fun i _ => i)
    (fun _ _ => 1) (1/2) ["a", "b", "c"] "g" 0 (by decide)
    (fun _ => (by decide : isZeroVec [1] = false))
  exact ⟨by decide, h.1, h.2.2 [("g", [0])]⟩

/-- Witness for C8 (amended): two distinct generator states exposing the
same two upcoming draws produce identical interval bounds. -/
theorem bootstrap_ci_deterministic_witness :
    (∀ i < 1 * ([(0 : ℚ), 1]).length, (fun n : Nat => n) (0 + i) = (fun n : Nat => n - 3) (3 + i)) ∧
    (bootstrap_ci ⟨fun n => n, 0⟩ [(0 : ℚ), 1] (fun l => l.sum / (l.length : ℚ)) 1 (1/20)).1
      = (bootstrap_ci ⟨fun n => n - 3, 3⟩ [(0 : ℚ), 1] (fun l => l.sum / (l.length : ℚ)) 1 (1/20)).1 := by
  refine ⟨by decide, ?_⟩
  exact (bootstrap_ci_deterministic_given_stream ⟨fun n => n, 0⟩ ⟨fun n => n - 3, 3⟩
    [(0 : ℚ), 1] (fun l => l.sum / (l.length : ℚ)) 1 (1/20) (by decide)).1

/-- Witness for C9: a single-entry mapping yields the empty disparity
result without an exception. -/
theorem insufficient_groups_empty_witness :
    ([("solo", gmConst 0 0 0)]).length < 2 ∧
    computeFairnessMetricsE [("solo", gmConst 0 0 0)] = .ok none := by
  exact ⟨by decide, insufficient_groups_empty [("solo", gmConst 0 0 0)] (by decide)⟩

/-- A two-row table carrying a single group tag. -/
def singleGroupRows : List Row :=
  [{ label := 1, group := "solo", prob := 1, pred := 1 },
   { label := 0, group := "solo", prob := 0, pred := 0 }]

/-- Witness for C10: the single-group sample table flags nothing and its
assessment is `PASS`. -/
theorem single_group_passes_witness :
    (singleGroupRows.map Row.group).dedup = ["solo"] ∧
    identifyFlags (computeFairnessMetrics (computeGroupMetrics 1 1 singleGroupRows)) = [] ∧
    assessment (identifyFlags (computeFairnessMetrics (computeGroupMetrics 1 1 singleGroupRows))) = "PASS" := by
  have h := single_group_passes 1 1 singleGroupRows "solo" (by decide)
  exact ⟨by decide, h.2.1, h.2.2⟩

end FairAi
